import Mathlib

/-!
Verification of the Skandia "Kontoutdrag" XLSX importer
(`src/beangulp_skandia/importer.py`) against its natural-language
specification.

The importer is shallowly embedded below.  Conventions of the embedding:

* Exact decimal values (`decimal.Decimal`) are modelled as rationals (`ℚ`).
  The special values `NaN`/`Infinity` of the decimal library lie outside
  this numeric model and are treated as parse failures.
* A spreadsheet cell read with `dtype=str` is either a string or the float
  `NaN` (for an empty cell); it is modelled as `Option String`, with `none`
  standing for `NaN`.
* Code that can raise an exception is modelled in the `Except Unit` monad;
  `Except.error ()` stands for any propagating Python exception.
* Calendar dates (and the timestamps produced by `pd.to_datetime`, which the
  importer only ever observes through `.date()`) are modelled as `Nat` codes;
  the flexible pandas date parser is an explicit function parameter
  `parseDate : String → Option Nat` (`none` models `NaT`).
* Python dictionaries are modelled as association lists in insertion order;
  `dictGet` is `dict.get` and `dictInsert` is item assignment (overwrite in
  place, append when fresh), matching Python's ordering semantics.
-/

deriving instance DecidableEq for Except

namespace Skandia

/-- Exact decimal numbers are modelled as rationals. -/
abbrev Dec := ℚ

/-- A raw spreadsheet cell: `none` models pandas `NaN` (empty cell). -/
abbrev Cell := Option String

/-- An untyped grid of cells, as returned by
`pd.read_excel(file, sheet_name="Kontoutdrag", header=None, dtype=str)`. -/
abbrev Grid := List (List Cell)

/-- Does `needle` occur as a contiguous subsequence of the list? -/
def containsSeq [BEq α] (needle : List α) : List α → Bool
  | [] => needle.isEmpty
  | a :: t => needle.isPrefixOf (a :: t) || containsSeq needle t

/-- Python's substring test `needle in hay`. -/
def strContains (hay needle : String) : Bool :=
  containsSeq needle.toList hay.toList

/-- Keep only the digit characters of a string, as in
`"".join(ch for ch in s if ch.isdigit())`. -/
def digitsOnly (s : String) : String :=
  String.mk (s.toList.filter Char.isDigit)

/-- Python's `str()` applied to a cell value: a string is itself, while the
float `NaN` prints as `"nan"`. -/
def cellStr : Cell → String
  | none => "nan"
  | some s => s

/-- Truthiness of a Python optional string (`if x:`): `None` and `""` are
falsy, every other string is truthy. -/
def truthyStr : Option String → Bool
  | none => false
  | some s => !(s == "")

/-- Python's `str.lower()`, modelled character-wise (the configured keywords
and rule substrings are ASCII-relevant).  (Defined structurally so that
concrete witnesses evaluate in the kernel.) -/
def pyLower (s : String) : String :=
  String.mk (s.toList.map Char.toLower)

/-- Python's `str.strip()`: drop leading and trailing whitespace.  (Defined
by structural recursion so that concrete witnesses evaluate in the kernel.) -/
def pyStrip (s : String) : String :=
  String.mk (((s.toList.dropWhile Char.isWhitespace).reverse.dropWhile
    Char.isWhitespace).reverse)

/-- The Python slice `s[i : i + L]` (within bounds in all our uses). -/
def slice (s : String) (i L : Nat) : String :=
  String.mk ((s.toList.drop i).take L)

/-- Greedily take leading decimal digits from a character list, returning the
digits and the rest. -/
def takeDigits : List Char → List Char × List Char
  | [] => ([], [])
  | c :: cs =>
    if c.isDigit then
      let p := takeDigits cs
      (c :: p.1, p.2)
    else ([], c :: cs)

/-- Numeric value of a digit list (most significant first). -/
def natOfDigits (ds : List Char) : Nat :=
  ds.foldl (fun n c => 10 * n + (c.toNat - '0'.toNat)) 0

/-- The exact value of a parsed decimal string: sign, concatenated digits,
number of fraction digits, and signed exponent, assembled as a rational.
(Built from `mkRat` and negation only, so concrete witnesses evaluate in the
kernel.) -/
def decValue (sgnNeg : Bool) (n fracLen : Nat) (expNeg : Bool) (e : Nat) : Dec :=
  let t : Int := (if expNeg then -(e : Int) else (e : Int)) - (fracLen : Int)
  let q : Dec := if 0 ≤ t then mkRat ((n * 10 ^ t.toNat : Nat) : Int) 1
    else mkRat (n : Int) (10 ^ (-t).toNat)
  if sgnNeg then -q else q

/-- Model of `decimal.Decimal(s)` for finite numeric strings: optional
surrounding whitespace, an optional sign, an integer part and/or a fractional
part (at least one digit overall), and an optional exponent.  `none` models a
raised `decimal.InvalidOperation`.  The special values `NaN`/`Infinity`
accepted by the library are outside this numeric model. -/
def parseDecimal (s : String) : Option Dec :=
  let cs := (pyStrip s).toList
  let sp :=
    match cs with
    | '+' :: r => (false, r)
    | '-' :: r => (true, r)
    | r => (false, r)
  let ipr := takeDigits sp.2
  let fpr :=
    match ipr.2 with
    | '.' :: r => takeDigits r
    | r => ([], r)
  if ipr.1.isEmpty && fpr.1.isEmpty then none
  else
    let n := natOfDigits (ipr.1 ++ fpr.1)
    match fpr.2 with
    | [] => some (decValue sp.1 n fpr.1.length false 0)
    | e :: r =>
      if e == 'e' || e == 'E' then
        let esp :=
          match r with
          | '+' :: r2 => (false, r2)
          | '-' :: r2 => (true, r2)
          | r2 => (false, r2)
        let edr := takeDigits esp.2
        if edr.1.isEmpty || !edr.2.isEmpty then none
        else some (decValue sp.1 n fpr.1.length esp.1 (natOfDigits edr.1))
      else none

/-- Python `s.replace(old, new)` specialized to the single-character
patterns the importer uses: every occurrence of the character `old` is
replaced by the character list `new` (empty list = deletion).  (Defined by
structural recursion so that concrete witnesses evaluate in the kernel.) -/
def replaceChar (s : String) (old : Char) (new : List Char) : String :=
  String.mk (s.toList.foldr (fun c acc => if c == old then new ++ acc else c :: acc) [])

/-- Separator normalization shared by `to_decimal` and `parse_balance`:
strip NBSP (U+00A0) and spaces, drop `.` (thousands separator), turn `,`
into the decimal point — `s.replace("\u00A0", "").replace(" ", "")` then
`.replace(".", "").replace(",", ".")`. -/
def normalizeSeparators (x : String) : String :=
  replaceChar (replaceChar (replaceChar (replaceChar x '\u00A0' []) ' ' []) '.' []) ',' ['.']

/-- Second-fallback stripping: keep only digits, dots and minus signs, as in
`re.sub(r"[^0-9\.-]", "", s)`. -/
def stripToNumeric (s : String) : String :=
  String.mk (s.toList.filter (fun c => c.isDigit || c == '.' || c == '-'))

/-- The amount normalizer `to_decimal` of `_data_frame`.  A null/NaN cell
yields zero; otherwise the separator-normalized string is parsed, falling
back to the stripped string (or `"0"` when the stripped string is empty).
The second `Decimal` call is NOT guarded by a `try`, so a stripped string
that is non-empty but still invalid raises — modelled as `Except.error`. -/
def to_decimal (x : Cell) : Except Unit Dec :=
  match x with
  | none => Except.ok 0
  | some x =>
    let s := normalizeSeparators x
    match parseDecimal s with
    | some d => Except.ok d
    | none =>
      let s2 := stripToNumeric s
      let s2 := if s2.isEmpty then "0" else s2
      match parseDecimal s2 with
      | some d => Except.ok d
      | none => Except.error ()

/-- The balance normalizer `parse_balance` of `_append_balance_assertions`.
Unlike `to_decimal`, both `Decimal` calls are guarded, so failure yields
`none` ("absent") and nothing ever raises. -/
def parse_balance (x : Cell) : Option Dec :=
  match x with
  | none => none
  | some x =>
    let s := normalizeSeparators x
    match parseDecimal s with
    | some d => some d
    | none => parseDecimal (stripToNumeric s)

/-- Python `dict.get`: the value stored under `k`, if any.  A dictionary is
modelled as an association list in insertion order with pairwise-distinct
keys (the invariant Python maintains). -/
def dictGet (d : List (String × String)) (k : String) : Option String :=
  (d.find? (fun p => p.1 == k)).map (fun p => p.2)

/-- Python `d[k] = v`: overwrite in place when the key exists (keeping its
position, as Python dicts do), otherwise append. -/
def dictInsert : List (String × String) → String → String → List (String × String)
  | [], k, v => [(k, v)]
  | p :: d, k, v => if p.1 == k then (k, v) :: d else p :: dictInsert d k v

/-- Build a dict from a list of key/value pairs by repeated assignment, the
semantics of a Python dict comprehension / insertion loop. -/
def dictOfPairs (d0 : List (String × String)) (l : List (String × String)) :
    List (String × String) :=
  l.foldl (fun m p => dictInsert m p.1 p.2) d0

/-- The account-map construction of `_ensure_config_loaded` (lines 126-132):
`normalized` maps every configured key's digit-only form to its value, and
the stored map is `{**accounts, **normalized}` — the raw table updated by the
normalized entries (later `**` unpackings win in Python). -/
def buildAccountMap (accounts : List (String × String)) : List (String × String) :=
  let normalized := dictOfPairs [] (accounts.map (fun p => (digitsOnly p.1, p.2)))
  dictOfPairs accounts normalized

/-- The importer's runtime configuration, as populated by
`_ensure_config_loaded`: the dataclass fields plus the `_`-prefixed runtime
fields that the extraction pipeline reads.  `rules_map` keys and
`transfers_keywords` are stored lowercased by the loader; `account_map` is
the output of `buildAccountMap`. -/
structure Config where
  currency : String
  infer_payee_from_description : Bool
  skip_zero_amounts : Bool
  positive_is_increase : Bool
  account_map : List (String × String)
  balances_enabled : Bool
  balances_granularity : String
  rules_enabled : Bool
  rules_default_counter : Option String
  rules_map : List (String × String)
  transfers_enabled : Bool
  transfers_classify_account : String
  transfers_parse_dest_in_desc : Bool
  transfers_keywords : List String
deriving Repr, DecidableEq

/-- `_looks_like_transfer` (lines 397-401).  The description is the raw cell
value: when the cell was empty it is the float `NaN`, which is truthy, so the
guard `not desc` falls through and `desc.lower()` raises `AttributeError` —
modelled as `Except.error`. -/
def looks_like_transfer (cfg : Config) (desc : Cell) : Except Unit Bool :=
  if !cfg.transfers_enabled then Except.ok false
  else
    match desc with
    | none => Except.error ()
    | some s =>
      if s == "" then Except.ok false
      else Except.ok (cfg.transfers_keywords.any (fun k => strContains (pyLower s) k))

/-- The guarded map lookup `acct = map.get(cand); if acct: ...` — a hit only
counts when the stored value is truthy (non-empty). -/
def lookupTruthy (d : List (String × String)) (k : String) : Option String :=
  match dictGet d k with
  | some a => if a == "" then none else some a
  | none => none

/-- The sliding-window scan of `_resolve_transfer_counter` (lines 421-426):
window lengths 12 down to 8, leftmost starting position first, first truthy
hit wins.  `range(0, len(digits) - L + 1)` is empty when the digit string is
shorter than the window. -/
def windowSearch (d : List (String × String)) (digits : String) : Option String :=
  [12, 11, 10, 9, 8].findSome? (fun L =>
    if digits.length < L then none
    else
      (List.range (digits.length - L + 1)).findSome? (fun i =>
        lookupTruthy d (slice digits i L)))

/-- `_resolve_transfer_counter` (lines 403-427): with destination parsing
enabled and a non-empty account map, extract the description's digits and,
when at least 8 are present, try the full digit string and then the sliding
windows; otherwise (and on any miss) fall back to the configured transfer
classification account. -/
def resolve_transfer_counter (cfg : Config) (desc : String) : String :=
  if desc == "" then cfg.transfers_classify_account
  else if cfg.transfers_parse_dest_in_desc && !cfg.account_map.isEmpty then
    let digits := digitsOnly desc
    if 8 ≤ digits.length then
      match lookupTruthy cfg.account_map digits with
      | some a => a
      | none =>
        match windowSearch cfg.account_map digits with
        | some a => a
        | none => cfg.transfers_classify_account
    else cfg.transfers_classify_account
  else cfg.transfers_classify_account

/-- `_guess_counter_account` (lines 430-437): `None` when rules are disabled
or the rules map is empty; otherwise the first configured substring occurring
in the lowercased description wins, falling back to the configured default
counter.  A `NaN` description is truthy, so `(desc or "").lower()` raises on
it — but only after the rules guard. -/
def guess_counter_account (cfg : Config) (desc : Cell) : Except Unit (Option String) :=
  if !cfg.rules_enabled || cfg.rules_map.isEmpty then Except.ok none
  else
    match desc with
    | none => Except.error ()
    | some s0 =>
      let s := pyLower s0
      match cfg.rules_map.find? (fun p => strContains s p.1) with
      | some p => Except.ok (some p.2)
      | none => Except.ok cfg.rules_default_counter

/-- One leg of a transaction.  The source always passes `cost=None`,
`price=None`, `flag=None`, `meta={}`; those constant fields are omitted. -/
structure Posting where
  account : String
  number : Dec
  currency : String
deriving Repr, DecidableEq

/-- A produced transaction.  The source always uses `flag=FLAG_OKAY` and
empty tags/links; those constant fields are omitted.  `payee`/`narration`
carry raw cell values because the source assigns `row["desc"]` to them
unconverted. -/
structure Txn where
  date : Nat
  payee : Cell
  narration : Cell
  postings : List Posting
deriving Repr, DecidableEq

/-- A produced balance assertion (`tolerance`/`diff_amount` are always
`None` in the source and omitted). -/
structure BalanceEntry where
  date : Nat
  account : String
  number : Dec
  currency : String
deriving Repr, DecidableEq

/-- A directive appended to the output list by `extract`. -/
inductive Entry where
  | txn : Txn → Entry
  | bal : BalanceEntry → Entry
deriving Repr, DecidableEq

/-- A row of the typed data frame produced by `_data_frame`: parsed date,
raw description cell, parsed amount, raw balance cell (parsed only later by
`_append_balance_assertions`). -/
structure Row where
  date : Nat
  desc : Cell
  amount : Dec
  balance : Cell
deriving Repr, DecidableEq

/-- The per-row classification of `extract` (lines 473-499): transfers are
tried first; otherwise the keyword-rules guess is used when truthy.  `some`
means a counter posting will be appended with that account. -/
def counterAccount (cfg : Config) (desc : Cell) : Except Unit (Option String) := do
  let isTr ← looks_like_transfer cfg desc
  if isTr then
    return some (resolve_transfer_counter cfg (cellStr desc))
  else
    let guessed ← guess_counter_account cfg desc
    if truthyStr guessed then return guessed else return none

/-- The body of `extract`'s row loop (lines 451-511) for one data-frame row:
skip zero amounts when configured; emit the primary posting on the resolved
account and, when classification yields a counter account, a second posting
with the exact negated amount.  Note line 456:
`number = D(str(amt if self.positive_is_increase else amt))` — both branches
of the conditional are the same expression. -/
def rowEntry (cfg : Config) (acct : String) (r : Row) : Except Unit (Option Txn) :=
  if cfg.skip_zero_amounts && decide (r.amount = 0) then Except.ok none
  else do
    let number := if cfg.positive_is_increase then r.amount else r.amount
    let primary : Posting := { account := acct, number := number, currency := cfg.currency }
    let counter? ← counterAccount cfg r.desc
    let postings :=
      match counter? with
      | some c => [primary, { account := c, number := -number, currency := cfg.currency }]
      | none => [primary]
    return some
      { date := r.date
        payee := if cfg.infer_payee_from_description then r.desc else none
        narration := if cfg.infer_payee_from_description then some "" else r.desc
        postings := postings }

/-- Fold `rowEntry` over the data-frame rows in order, collecting the
transactions that were not skipped; any raised exception propagates. -/
def buildTxns (cfg : Config) (acct : String) : List Row → Except Unit (List Txn)
  | [] => Except.ok []
  | r :: rs => do
    let t? ← rowEntry cfg acct r
    let rest ← buildTxns cfg acct rs
    match t? with
    | some t => return t :: rest
    | none => return rest

/-- The rows of the data frame paired with their parsed running balance —
`with_bal.dropna(subset=["balval"])` of `_append_balance_assertions`. -/
def withBalance (rows : List Row) : List (Row × Dec) :=
  rows.filterMap (fun r => (parse_balance r.balance).map (fun b => (r, b)))

/-- `groupby(date).tail(1)` in original row order: an element is kept exactly
when no later element carries the same date. -/
def selectLastPerDate : List (Row × Dec) → List (Row × Dec)
  | [] => []
  | x :: xs =>
    (if xs.any (fun y => y.1.date == x.1.date) then [] else [x]) ++ selectLastPerDate xs

/-- `_append_balance_assertions` (lines 353-394): under `"file_end"`
granularity the last balance-bearing row (if any) yields one entry; under any
other granularity (the loader only ever stores `"daily"` or `"file_end"`)
the last balance-bearing row of each calendar date yields one entry each. -/
def appendBalanceAssertions (granularity acct currency : String) (rows : List Row) :
    List BalanceEntry :=
  let withBal := withBalance rows
  let chosen :=
    if granularity == "file_end" then
      match withBal.getLast? with
      | some x => [x]
      | none => []
    else selectLastPerDate withBal
  chosen.map (fun x =>
    { date := x.1.date, account := acct, number := x.2, currency := currency })

/-- `str(row.get(j, ""))` of `_find_header_row`: an out-of-range column index
yields the default `""`, an in-range empty cell is the float `NaN` and prints
as `"nan"`. -/
def cellGetStr (r : List Cell) (j : Nat) : String :=
  match r.get? j with
  | some c => cellStr c
  | none => ""

/-- The first four column labels of a candidate header row, trimmed. -/
def labels4 (r : List Cell) : List String :=
  (List.range 4).map (fun j => pyStrip (cellGetStr r j))

/-- The expected Swedish header labels. -/
def SWEDISH_HEADERS : List String := ["Bokf. datum", "Beskrivning", "Belopp", "Saldo"]

/-- The per-row test of `_find_header_row` (lines 271-277): the first cell
must be `"Bokf. datum"` after trimming and the first four labels must equal
the expected headers. -/
def headerMatch (r : List Cell) : Bool :=
  pyStrip (cellStr ((r.get? 0).getD none)) == "Bokf. datum" &&
    labels4 r == SWEDISH_HEADERS

/-- Scan the grid rows top to bottom for the first header match, returning
its positional index (`raw.iterrows()` over a `header=None` frame uses the
positional range index). -/
def findHeaderIdx (p : List Cell → Bool) : Nat → Grid → Option Nat
  | _, [] => none
  | i, r :: g => if p r then some i else findHeaderIdx p (i + 1) g

/-- `_find_header_row` (lines 271-277). -/
def findHeaderRow (g : Grid) : Option Nat :=
  findHeaderIdx headerMatch 0 g

/-- `identify` (lines 279-286): the whole body runs under `try`, so a file
whose raw read raises (modelled by an `Except.error` input) identifies as
`False`; otherwise identification succeeds exactly when a header row is
found. -/
def identify (raw : Except Unit Grid) : Bool :=
  match raw with
  | Except.error _ => false
  | Except.ok g => (findHeaderRow g).isSome

/-- The row construction at the end of `_data_frame`: amounts are mapped
through `to_decimal` (over every row that survived the blank-date filter —
this runs BEFORE dates failing `pd.to_datetime` are dropped, and its
exceptions propagate), then rows whose date failed to parse are dropped. -/
def buildRows (parseDate : String → Option Nat) :
    List (Cell × Cell × Cell × Cell) → Except Unit (List Row)
  | [] => Except.ok []
  | (d, de, a, b) :: rest => do
    let amt ← to_decimal a
    let rs ← buildRows parseDate rest
    match parseDate (cellStr d) with
    | some dt => return { date := dt, desc := de, amount := amt, balance := b } :: rs
    | none => return rs

/-- `_data_frame` (lines 313-350): fail when no header row exists; otherwise
slice the rows strictly below the header to their first four columns, keep
those whose date cell is non-null and non-blank, and build the typed rows. -/
def dataFrame (parseDate : String → Option Nat) (g : Grid) : Except Unit (List Row) :=
  match findHeaderRow g with
  | none => Except.error ()
  | some h =>
    let below := (g.drop (h + 1)).map (fun r =>
      ((r.get? 0).getD none, (r.get? 1).getD none, (r.get? 2).getD none, (r.get? 3).getD none))
    let data := below.filter (fun q =>
      match q.1 with
      | some s => !(pyStrip s == "")
      | none => false)
    buildRows parseDate data

/-- `extract` (lines 439-517): build one transaction per surviving row and,
when balance assertions are enabled, append the balance entries.  `acct` is
the resolved account for the file
(`self._account_from_kontonummer(file) or self.account_name`). -/
def extract (parseDate : String → Option Nat) (cfg : Config) (acct : String)
    (g : Grid) : Except Unit (List Entry) := do
  let rows ← dataFrame parseDate g
  let txns ← buildTxns cfg acct rows
  let entries := txns.map Entry.txn
  if cfg.balances_enabled then
    return entries ++
      (appendBalanceAssertions cfg.balances_granularity acct cfg.currency rows).map Entry.bal
  else
    return entries

/-- Transfer-destination resolution transcribed from the specification's
words (§4.4, secondary function): with destination parsing enabled and a
non-empty AccountMap, extract all digit characters; with at least 8 digits,
first try the full digit string against the map, then every contiguous
substring of lengths 12, 11, 10, 9, 8 in that descending order (leftmost
position first), returning the first match; in every other case return the
configured transfer-classification account.  A "match" here is plain key
membership in the map (`dictGet`), the spec-level reading, whereas the code
additionally skips entries whose stored value is the empty string. -/
def resolveTransferSpec (cfg : Config) (desc : String) : String :=
  if cfg.transfers_parse_dest_in_desc && !cfg.account_map.isEmpty then
    let digits := digitsOnly desc
    if 8 ≤ digits.length then
      match dictGet cfg.account_map digits with
      | some a => a
      | none =>
        match
          [12, 11, 10, 9, 8].findSome? (fun L =>
            if digits.length < L then none
            else
              (List.range (digits.length - L + 1)).findSome? (fun i =>
                dictGet cfg.account_map (slice digits i L))) with
        | some a => a
        | none => cfg.transfers_classify_account
    else cfg.transfers_classify_account
  else cfg.transfers_classify_account

/-- A baseline configuration for concrete witnesses: the dataclass defaults
with every optional feature disabled (no config file ⇒ empty rules map and
the default transfer keyword list, transfers kept off here). -/
def cfg0 : Config :=
  { currency := "SEK"
    infer_payee_from_description := true
    skip_zero_amounts := true
    positive_is_increase := false
    account_map := []
    balances_enabled := false
    balances_granularity := "daily"
    rules_enabled := false
    rules_default_counter := none
    rules_map := []
    transfers_enabled := false
    transfers_classify_account := "Expenses:Transfers:Internal"
    transfers_parse_dest_in_desc := true
    transfers_keywords := ["överföring", "överforing", "overforing"] }

/-- A concrete date parser for witnesses. -/
def pdW : String → Option Nat := fun s =>
  if s == "2025-08-25" then some 20250825 else none

/-- A concrete well-formed statement grid with one data row. -/
def gW : Grid :=
  [ [some "Bokf. datum", some "Beskrivning", some "Belopp", some "Saldo"],
    [some "2025-08-25", some "Kaffe", some "-100", some "1000"] ]

/-- The transaction `extract` produces from `gW` under `cfg0`. -/
def txnW : Txn :=
  { date := 20250825
    payee := some "Kaffe"
    narration := some ""
    postings := [{ account := "Assets:X", number := -100, currency := "SEK" }] }

/-- A grid with a valid header row whose only data row has a non-blank but
unparsable date cell and the amount cell `"-"`: `to_decimal("-")` reaches the
unguarded `Decimal("-")` and raises. -/
def gridC10 : Grid :=
  [ [some "Bokf. datum", some "Beskrivning", some "Belopp", some "Saldo"],
    [some "2025-99-99", some "Desc", some "-", some "100"] ]

/-- Concrete rows for the balance-assertion witness: two balance-bearing rows
on date 1, one balance-less row on date 2. -/
def rowsW : List Row :=
  [ { date := 1, desc := some "a", amount := 5, balance := some "10" },
    { date := 1, desc := some "b", amount := 6, balance := some "20" },
    { date := 2, desc := some "c", amount := 7, balance := none } ]

/-! Helper lemmas about the Python-dict model. -/

theorem dictGet_cons (q : String × String) (d : List (String × String)) (k : String) :
    dictGet (q :: d) k = if q.1 == k then some q.2 else dictGet d k := by
  by_cases h : q.1 == k <;> simp [dictGet, List.find?_cons, h]

theorem dictGet_dictInsert (d : List (String × String)) (k v k' : String) :
    dictGet (dictInsert d k v) k' = if k == k' then some v else dictGet d k' := by
  induction d with
  | nil => by_cases h : k = k' <;> simp [dictInsert, dictGet_cons, h, dictGet]
  | cons q d ih =>
    by_cases h : q.1 = k
    · subst h
      by_cases h2 : q.1 = k' <;>
        simp [dictInsert, dictGet_cons, h2]
    · have hb : (q.1 == k) = false := by simp [h]
      by_cases h2 : q.1 = k'
      · subst h2
        have hk : ¬(k == q.1) = true := by
          simp only [beq_iff_eq]
          exact fun hh => h hh.symm
        simp [dictInsert, hb, dictGet_cons, hk]
      · simp [dictInsert, hb, dictGet_cons, h2, ih]

theorem dictGet_dictOfPairs (l : List (String × String)) (d : List (String × String))
    (k : String) :
    dictGet (dictOfPairs d l) k =
      l.foldl (fun acc p => if p.1 == k then some p.2 else acc) (dictGet d k) := by
  induction l generalizing d with
  | nil => rfl
  | cons p l ih =>
    show dictGet (dictOfPairs (dictInsert d p.1 p.2) l) k = _
    rw [ih, dictGet_dictInsert]
    rfl

/-- Keys of an inserted dict come from the inserted key or the old dict. -/
theorem mem_dictInsert (q : String × String) (d : List (String × String)) (k v : String)
    (h : q ∈ dictInsert d k v) : q.1 = k ∨ q ∈ d := by
  induction d with
  | nil =>
    simp [dictInsert] at h
    subst h
    exact Or.inl rfl
  | cons p d ih =>
    by_cases hp : p.1 == k
    · simp only [dictInsert, hp, if_pos] at h
      rcases List.mem_cons.mp h with h | h
      · left
        rw [h]
      · right
        exact List.mem_cons_of_mem _ h
    · simp only [dictInsert, hp, if_neg, Bool.not_eq_true] at h
      rcases List.mem_cons.mp h with h | h
      · right
        rw [h]
        exact List.mem_cons_self _ _
      · rcases ih h with h' | h'
        · exact Or.inl h'
        · exact Or.inr (List.mem_cons_of_mem _ h')

/-- Distinct keys: the invariant a Python dict maintains. -/
def KeysDistinct (d : List (String × String)) : Prop :=
  d.Pairwise (fun a b => a.1 ≠ b.1)

theorem keysDistinct_dictInsert (d : List (String × String)) (k v : String)
    (h : KeysDistinct d) : KeysDistinct (dictInsert d k v) := by
  induction d with
  | nil => simp [dictInsert, KeysDistinct]
  | cons p d ih =>
    rcases List.pairwise_cons.mp h with ⟨hp, hd⟩
    by_cases hpk : p.1 == k
    · have hk : p.1 = k := beq_iff_eq.mp hpk
      subst hk
      simp only [dictInsert, beq_self_eq_true, if_pos]
      exact List.pairwise_cons.mpr ⟨hp, hd⟩
    · simp only [dictInsert, hpk, Bool.false_eq_true, if_neg, not_false_iff]
      refine List.pairwise_cons.mpr ⟨?_, ih hd⟩
      intro q hq
      rcases mem_dictInsert q d k v hq with h' | h'
      · rw [h']
        intro hc
        exact hpk (beq_iff_eq.mpr hc)
      · exact hp q h'

theorem keysDistinct_dictOfPairs (l : List (String × String))
    (d : List (String × String)) (h : KeysDistinct d) : KeysDistinct (dictOfPairs d l) := by
  induction l generalizing d with
  | nil => exact h
  | cons p l ih => exact ih _ (keysDistinct_dictInsert d p.1 p.2 h)

/-- An accumulator fold that only ever overwrites with `some` keeps `some`. -/
theorem foldl_opt_isSome (f : String × String → Bool) (l : List (String × String))
    (init : Option String)
    (h : init.isSome = true ∨ ∃ q ∈ l, f q = true) :
    (l.foldl (fun acc p => if f p then some p.2 else acc) init).isSome = true := by
  induction l generalizing init with
  | nil =>
    rcases h with h | ⟨q, hq, _⟩
    · exact h
    · cases hq
  | cons p l ih =>
    simp only [List.foldl_cons]
    rcases h with h | ⟨q, hq, hfq⟩
    · refine ih _ (Or.inl ?_)
      by_cases hf : f p <;> simp [hf, h]
    · rcases List.mem_cons.mp hq with rfl | hq'
      · refine ih _ (Or.inl ?_)
        simp [hfq]
      · exact ih _ (Or.inr ⟨q, hq', hfq⟩)

theorem foldl_opt_no_match (f : String × String → Bool) (l : List (String × String))
    (init : Option String) (h : ∀ q ∈ l, f q = false) :
    l.foldl (fun acc p => if f p then some p.2 else acc) init = init := by
  induction l generalizing init with
  | nil => rfl
  | cons p l ih =>
    simp only [List.foldl_cons, h p (List.mem_cons_self _ _), Bool.false_eq_true, if_neg,
      not_false_iff]
    exact ih _ (fun q hq => h q (List.mem_cons_of_mem _ hq))

/-- Folding the overwrite accumulator over a dict with distinct keys reads
off the dict's unique value at the key, if any. -/
theorem foldl_opt_of_keysDistinct (m : List (String × String)) (hm : KeysDistinct m)
    (k : String) (init : Option String) :
    m.foldl (fun acc p => if p.1 == k then some p.2 else acc) init =
      match dictGet m k with
      | some v => some v
      | none => init := by
  induction m generalizing init with
  | nil => rfl
  | cons p m ih =>
    rcases List.pairwise_cons.mp hm with ⟨hp, hm'⟩
    by_cases h : p.1 = k
    · subst h
      simp only [List.foldl_cons, beq_self_eq_true, if_pos, dictGet_cons]
      exact foldl_opt_no_match _ m (some p.2) (fun q hq => by
        simp only [beq_eq_false_iff_ne]
        exact fun hc => hp q hq hc.symm)
    · have hb : (p.1 == k) = false := by simp [h]
      simp only [List.foldl_cons, hb, Bool.false_eq_true, if_neg, not_false_iff,
        dictGet_cons]
      rw [ih hm']

/-! Helper lemmas about balance-assertion selection. -/

theorem mem_selectLastPerDate (l : List (Row × Dec)) (x : Row × Dec)
    (h : x ∈ selectLastPerDate l) : x ∈ l := by
  induction l with
  | nil => cases h
  | cons y ys ih =>
    simp only [selectLastPerDate] at h
    rcases List.mem_append.mp h with h' | h'
    · by_cases hy : ys.any (fun z => z.1.date == y.1.date)
      · simp [hy] at h'
      · simp [hy] at h'
        rw [h']
        exact List.mem_cons_self _ _
    · exact List.mem_cons_of_mem _ (ih h')

theorem getLast?_cons_of_ne_nil {α : Type} (a : α) (t : List α) (h : t ≠ []) :
    (a :: t).getLast? = t.getLast? := by
  cases t with
  | nil => exact absurd rfl h
  | cons b l => exact List.getLast?_cons_cons

theorem selectLastPerDate_filter (l : List (Row × Dec)) (d : Nat) :
    (selectLastPerDate l).filter (fun x => x.1.date == d) =
      match (l.filter (fun x => x.1.date == d)).getLast? with
      | some x => [x]
      | none => [] := by
  induction l with
  | nil => rfl
  | cons y ys ih =>
    simp only [selectLastPerDate, List.filter_append]
    by_cases hyd : y.1.date = d
    · have h1 : List.filter (fun x => x.1.date == d) (y :: ys)
          = y :: List.filter (fun x => x.1.date == d) ys := by
        simp [List.filter_cons, hyd]
      by_cases hany : (ys.any fun z => z.1.date == y.1.date) = true
      · have hne : ys.filter (fun x => x.1.date == d) ≠ [] := by
          rcases List.any_eq_true.mp hany with ⟨z, hz, hzd⟩
          have hzd' : z.1.date = d := by
            rw [beq_iff_eq.mp hzd, hyd]
          intro hc
          have hzm : z ∈ ys.filter (fun x => x.1.date == d) :=
            List.mem_filter.mpr ⟨hz, by simp [hzd']⟩
          rw [hc] at hzm
          cases hzm
        rw [h1, getLast?_cons_of_ne_nil _ _ hne]
        simp [hany, ih]
      · rw [Bool.not_eq_true] at hany
        have hall : ∀ z ∈ ys, ¬ (z.1.date == y.1.date) = true :=
          List.any_eq_false.mp hany
        have hnil : ys.filter (fun x => x.1.date == d) = [] := by
          rw [List.filter_eq_nil_iff]
          intro x hxm hc
          have hxd : x.1.date = d := beq_iff_eq.mp hc
          exact hall x hxm (by simp [hxd, hyd])
        have hnone : (selectLastPerDate ys).filter (fun x => x.1.date == d) = [] := by
          rw [List.filter_eq_nil_iff]
          intro x hx hc
          have hxm : x ∈ ys := mem_selectLastPerDate ys x hx
          have hxd : x.1.date = d := beq_iff_eq.mp hc
          exact hall x hxm (by simp [hxd, hyd])
        have hcond : (if (ys.any fun z => z.1.date == y.1.date) = true
            then ([] : List (Row × Dec)) else [y]) = [y] := by
          simp [hany]
        rw [h1, hnil, hcond, hnone]
        simp [hyd]
    · have hb : (y.1.date == d) = false := by simp [hyd]
      have hfy : (List.filter (fun x => x.1.date == d)
          (if (ys.any fun z => z.1.date == y.1.date) = true then ([] : List (Row × Dec))
            else [y])) = [] := by
        by_cases hany : (ys.any fun z => z.1.date == y.1.date) = true <;> simp [hany, hb]
      rw [hfy, List.nil_append, ih]
      simp [List.filter_cons, hb]

/-! Helper lemmas about the extraction pipeline. -/

theorem buildTxns_mem (cfg : Config) (acct : String) (rows : List Row) (ts : List Txn)
    (h : buildTxns cfg acct rows = Except.ok ts) (t : Txn) (ht : t ∈ ts) :
    ∃ r ∈ rows, rowEntry cfg acct r = Except.ok (some t) := by
  induction rows generalizing ts with
  | nil =>
    simp only [buildTxns] at h
    cases h
    cases ht
  | cons r rs ih =>
    simp only [buildTxns, Bind.bind, Except.bind] at h
    cases h1 : rowEntry cfg acct r with
    | error e => rw [h1] at h; cases h
    | ok t? =>
      rw [h1] at h
      cases h2 : buildTxns cfg acct rs with
      | error e => rw [h2] at h; cases h
      | ok rest =>
        rw [h2] at h
        cases t? with
        | some t' =>
          simp only [pure, Except.pure, Except.ok.injEq] at h
          subst h
          rcases List.mem_cons.mp ht with rfl | ht'
          · exact ⟨r, List.mem_cons_self _ _, h1⟩
          · rcases ih rest h2 ht' with ⟨r', hr', he⟩
            exact ⟨r', List.mem_cons_of_mem _ hr', he⟩
        | none =>
          simp only [pure, Except.pure, Except.ok.injEq] at h
          subst h
          rcases ih rest h2 ht with ⟨r', hr', he⟩
          exact ⟨r', List.mem_cons_of_mem _ hr', he⟩

theorem extract_txn_mem (pd : String → Option Nat) (cfg : Config) (acct : String)
    (g : Grid) (es : List Entry) (h : extract pd cfg acct g = Except.ok es)
    (t : Txn) (ht : Entry.txn t ∈ es) :
    ∃ rows, dataFrame pd g = Except.ok rows ∧
      ∃ r ∈ rows, rowEntry cfg acct r = Except.ok (some t) := by
  simp only [extract, Bind.bind, Except.bind] at h
  cases h1 : dataFrame pd g with
  | error e => simp only [h1] at h; cases h
  | ok rows =>
    simp only [h1] at h
    cases h2 : buildTxns cfg acct rows with
    | error e => simp only [h2] at h; cases h
    | ok txns =>
      simp only [h2] at h
      refine ⟨rows, rfl, ?_⟩
      have htx : t ∈ txns := by
        by_cases hb : cfg.balances_enabled = true
        · simp only [hb, if_pos, pure, Except.pure, Except.ok.injEq] at h
          subst h
          rcases List.mem_append.mp ht with h' | h'
          · rcases List.mem_map.mp h' with ⟨x, hx, hxe⟩
            cases hxe
            exact hx
          · rcases List.mem_map.mp h' with ⟨x, _, hxe⟩
            cases hxe
        · rw [Bool.not_eq_true] at hb
          simp only [hb, Bool.false_eq_true, if_neg, not_false_iff, pure, Except.pure,
            Except.ok.injEq] at h
          subst h
          rcases List.mem_map.mp ht with ⟨x, hx, hxe⟩
          cases hxe
          exact hx
      exact buildTxns_mem cfg acct rows txns h2 t htx

theorem rowEntry_postings (cfg : Config) (acct : String) (r : Row) (t : Txn)
    (h : rowEntry cfg acct r = Except.ok (some t)) :
    (t.postings = [{ account := acct, number := r.amount, currency := cfg.currency }] ∨
      ∃ c, t.postings =
        [{ account := acct, number := r.amount, currency := cfg.currency },
         { account := c, number := -r.amount, currency := cfg.currency }]) ∧
      (counterAccount cfg r.desc = Except.ok none →
        t.postings = [{ account := acct, number := r.amount, currency := cfg.currency }]) := by
  simp only [rowEntry, ite_self, Bind.bind, Except.bind] at h
  by_cases hz : (cfg.skip_zero_amounts && decide (r.amount = 0)) = true
  · rw [if_pos hz] at h
    cases h
  · rw [if_neg hz] at h
    cases hc : counterAccount cfg r.desc with
    | error e => rw [hc] at h; cases h
    | ok co =>
      rw [hc] at h
      cases co with
      | some c =>
        simp only [pure, Except.pure, Except.ok.injEq, Option.some.injEq] at h
        subst h
        constructor
        · exact Or.inr ⟨c, rfl⟩
        · intro hnone
          simp at hnone
      | none =>
        simp only [pure, Except.pure, Except.ok.injEq, Option.some.injEq] at h
        subst h
        exact ⟨Or.inl rfl, fun _ => rfl⟩

/-! Helper lemmas about transfer resolution. -/

theorem findSome?_congr {α β : Type} (f g : α → Option β) (l : List α)
    (h : ∀ a ∈ l, f a = g a) : l.findSome? f = l.findSome? g := by
  induction l with
  | nil => rfl
  | cons a l ih =>
    rw [List.findSome?_cons, List.findSome?_cons, h a (List.mem_cons_self _ _),
      ih (fun a ha => h a (List.mem_cons_of_mem _ ha))]

theorem lookupTruthy_eq_dictGet (d : List (String × String))
    (hv : ∀ p ∈ d, p.2 ≠ "") (k : String) : lookupTruthy d k = dictGet d k := by
  unfold lookupTruthy
  cases hg : dictGet d k with
  | none => rfl
  | some a =>
    have ha : a ≠ "" := by
      simp only [dictGet, Option.map_eq_some'] at hg
      rcases hg with ⟨p, hp, hpa⟩
      rw [← hpa]
      exact hv p (List.mem_of_find?_eq_some hp)
    simp [ha]

/-! Helper lemmas about identification. -/

theorem findHeaderIdx_isSome (p : List Cell → Bool) (g : Grid) (i : Nat) :
    (findHeaderIdx p i g).isSome = true ↔ ∃ r ∈ g, p r = true := by
  induction g generalizing i with
  | nil => simp [findHeaderIdx]
  | cons r g ih =>
    by_cases h : p r = true
    · simp [findHeaderIdx, h]
    · simp only [findHeaderIdx, h, Bool.false_eq_true, if_neg, not_false_iff]
      rw [ih (i + 1)]
      constructor
      · rintro ⟨r', hr', hp⟩
        exact ⟨r', List.mem_cons_of_mem _ hr', hp⟩
      · rintro ⟨r', hr', hp⟩
        rcases List.mem_cons.mp hr' with rfl | hr''
        · exact absurd hp h
        · exact ⟨r', hr'', hp⟩

theorem headerMatch_iff (r : List Cell) :
    headerMatch r = true ↔ labels4 r = SWEDISH_HEADERS := by
  constructor
  · intro h
    exact beq_iff_eq.mp (Bool.and_elim_right h)
  · intro h
    have h0 : pyStrip (cellGetStr r 0) = "Bokf. datum" := by
      have hl : labels4 r = [pyStrip (cellGetStr r 0), pyStrip (cellGetStr r 1),
          pyStrip (cellGetStr r 2), pyStrip (cellGetStr r 3)] := by
        simp [labels4, List.range_succ]
      rw [hl] at h
      have := List.head_eq_of_cons_eq h
      exact this
    have h1 : pyStrip (cellStr ((r.get? 0).getD none)) = "Bokf. datum" := by
      cases hg : r.get? 0 with
      | none =>
        have hg' : r[0]? = none := by rw [← List.get?_eq_getElem?]; exact hg
        have hge : cellGetStr r 0 = "" := by simp [cellGetStr, hg']
        rw [hge] at h0
        exact absurd h0 (by decide)
      | some c =>
        have hg' : r[0]? = some c := by rw [← List.get?_eq_getElem?]; exact hg
        have hge : cellGetStr r 0 = cellStr c := by simp [cellGetStr, hg']
        rw [hge] at h0
        exact h0
    unfold headerMatch
    rw [Bool.and_eq_true]
    constructor
    · exact beq_iff_eq.mpr h1
    · exact beq_iff_eq.mpr h

/-- A string whose character list is empty is the empty string. -/
theorem eq_empty_of_data_nil (k : String) (h : k.toList = []) : k = "" := by
  apply String.ext
  exact h

/-- An empty haystack only contains the empty needle. -/
theorem strContains_empty (k : String) (h : strContains "" k = true) : k = "" := by
  unfold strContains at h
  have hnil : ("" : String).toList = [] := rfl
  rw [hnil] at h
  unfold containsSeq at h
  exact eq_empty_of_data_nil k (List.isEmpty_iff.mp h)

/-! The claims. -/

/-- C1: the claim says the primary posting's amount is the parsed amount
verbatim when `positive_is_increase` is false and the sign-negated amount
when it is true.  In the code, line 456 reads
`number = D(str(amt if self.positive_is_increase else amt))` — both branches
of the conditional are the same expression, so the flag has no effect at
all: the per-row entry builder produces identical output for
`positive_is_increase = True` and `positive_is_increase = False`, never a
negated amount.  (The spec is the evident intent — a configured inversion
flag — and the identical ternary branches are the slip.) -/
theorem c1_positive_is_increase_is_noop (cfg : Config) (acct : String) (r : Row) :
    rowEntry { cfg with positive_is_increase := true } acct r =
      rowEntry { cfg with positive_is_increase := false } acct r := rfl

/-- C6: the claim says amount normalization never raises and coerces to zero
when both parsing attempts fail.  But `to_decimal`'s second fallback
`return Decimal(s2 or "0")` is not guarded by a `try` (unlike the sibling
`parse_balance`): when the stripped string is non-empty yet still invalid —
e.g. the amount cells `"-"` (a dash placeholder) or `"1,2,3"` (which
normalizes to `"1.2.3"`) — `decimal.InvalidOperation` propagates out of
`to_decimal`. -/
theorem c6_to_decimal_raises :
    to_decimal (some "-") = Except.error () ∧
      to_decimal (some "1,2,3") = Except.error () := by decide

/-- C10: the claim says a file with a valid header row but no parsable dates
yields an empty extraction without raising.  `gridC10` has a valid header
row (so `identify` succeeds) and a single data row whose date cell is
non-blank but unparsable; because `_data_frame` maps `to_decimal` over the
amount column BEFORE dropping rows whose date failed to parse, the amount
cell `"-"` makes `extract` raise instead of returning the empty list. -/
theorem c10_extract_raises_without_parsable_dates :
    identify (Except.ok gridC10) = true ∧
      extract (fun _ => none) { cfg0 with balances_enabled := true } "Assets:X" gridC10 =
        Except.error () := by decide

/-- C7 counterexample: the claim says a normalized entry never overwrites a
pre-existing raw-form entry with the same key text.  With the configured
table `{"12345678": "Assets:A", "1234-5678": "Assets:B"}`, the second key's
digit-only form is the text of the first raw key, and because the merge is
`{**accounts, **normalized}` (normalized entries last, so they win), the
stored map sends `"12345678"` to `"Assets:B"` — the raw mapping
`"Assets:A"` is overwritten. -/
theorem c7_counterexample :
    dictGet (buildAccountMap [("12345678", "Assets:A"), ("1234-5678", "Assets:B")])
        "12345678" = some "Assets:B" ∧ ("Assets:B" : String) ≠ "Assets:A" := by decide

/-- C8 counterexample: the claim says that with rules enabled and a
default counter configured, a description matching no rules-map substring
gets a counter posting on the default counter.  But `_guess_counter_account`
returns `None` whenever the rules MAP is empty (`not self._rules_map`), even
though rules are enabled and a default counter is configured — so the
transaction keeps a single posting and no default-counter posting appears. -/
theorem c8_counterexample :
    rowEntry
        { cfg0 with
          rules_enabled := true
          rules_default_counter := some "Equity:Unknown"
          rules_map := [] }
        "Assets:A" { date := 0, desc := some "Coffee", amount := -5, balance := none } =
      Except.ok (some
        { date := 0
          payee := some "Coffee"
          narration := some ""
          postings := [{ account := "Assets:A", number := -5, currency := "SEK" }] }) := by
  decide

/-- C2: every Transaction produced by `extract` comes from a data-frame row
and has exactly one primary posting — the first — on the resolved account
with the row's amount in the configured currency, and at most one
counter-posting; when a counter-posting is present its amount is the exact
negation of the primary amount in the same currency (so the two postings sum
to zero), and when the classification yields no counter account the
transaction has only the single primary posting. -/
theorem c2_postings_balanced (pd : String → Option Nat) (cfg : Config) (acct : String)
    (g : Grid) (es : List Entry) (t : Txn)
    (h : extract pd cfg acct g = Except.ok es) (ht : Entry.txn t ∈ es) :
    ∃ rows r, dataFrame pd g = Except.ok rows ∧ r ∈ rows ∧
      rowEntry cfg acct r = Except.ok (some t) ∧
      (t.postings = [{ account := acct, number := r.amount, currency := cfg.currency }] ∨
        ∃ c, t.postings =
          [{ account := acct, number := r.amount, currency := cfg.currency },
           { account := c, number := -r.amount, currency := cfg.currency }]) ∧
      (counterAccount cfg r.desc = Except.ok none →
        t.postings = [{ account := acct, number := r.amount, currency := cfg.currency }]) := by
  rcases extract_txn_mem pd cfg acct g es h t ht with ⟨rows, hrows, r, hr, he⟩
  rcases rowEntry_postings cfg acct r t he with ⟨hshape, hsingle⟩
  exact ⟨rows, r, hrows, hr, he, hshape, hsingle⟩

/-- Witness for C2 at a concrete statement grid with one non-transfer row. -/
theorem c2_postings_balanced_witness :
    ∃ rows r, dataFrame pdW gW = Except.ok rows ∧ r ∈ rows ∧
      rowEntry cfg0 "Assets:X" r = Except.ok (some txnW) ∧
      (txnW.postings =
          [{ account := "Assets:X", number := r.amount, currency := cfg0.currency }] ∨
        ∃ c, txnW.postings =
          [{ account := "Assets:X", number := r.amount, currency := cfg0.currency },
           { account := c, number := -r.amount, currency := cfg0.currency }]) ∧
      (counterAccount cfg0 r.desc = Except.ok none →
        txnW.postings =
          [{ account := "Assets:X", number := r.amount, currency := cfg0.currency }]) :=
  c2_postings_balanced pdW cfg0 "Assets:X" gW [Entry.txn txnW] txnW (by decide) (by decide)

/-- C9: `identify` returns true exactly when the (successfully read) grid
contains a row whose first four cells, stringified and stripped, equal the
four expected Swedish header labels in order (the first of which is the
date-column header `"Bokf. datum"`); a failed read (any exception, modelled
by an `Except.error` input) yields false, and `identify` is a total
function — no exception reaches the caller. -/
theorem c9_identify_iff_header (raw : Except Unit Grid) :
    identify raw = true ↔
      ∃ g, raw = Except.ok g ∧ ∃ row ∈ g, labels4 row = SWEDISH_HEADERS := by
  cases raw with
  | error e =>
    simp only [identify]
    constructor
    · intro h
      cases h
    · rintro ⟨g, hg, -⟩
      cases hg
  | ok g =>
    simp only [identify, findHeaderRow]
    rw [findHeaderIdx_isSome]
    constructor
    · rintro ⟨row, hrow, hm⟩
      exact ⟨g, rfl, row, hrow, (headerMatch_iff row).mp hm⟩
    · rintro ⟨g', hg', row, hrow, hl⟩
      cases hg'
      exact ⟨row, hrow, (headerMatch_iff row).mpr hl⟩

/-- C3: for every row with a non-empty description containing at least one
configured transfer keyword (transfers enabled, keywords being actual words,
i.e. non-empty, as in the default keyword list), the counter account is the
result of transfer-destination resolution, and the keyword-rules
configuration (enabled flag, map, default counter) is never consulted: the
classification result is the same for every rules configuration. -/
theorem c3_transfer_precedence (cfg : Config) (desc : String)
    (hen : cfg.transfers_enabled = true)
    (hwf : ∀ k ∈ cfg.transfers_keywords, k ≠ "")
    (hk : (cfg.transfers_keywords.any fun k => strContains (pyLower desc) k) = true)
    (rEn : Bool) (rMap : List (String × String)) (rDef : Option String) :
    counterAccount
        { cfg with
          rules_enabled := rEn
          rules_map := rMap
          rules_default_counter := rDef }
        (some desc) =
      Except.ok (some (resolve_transfer_counter cfg desc)) := by
  have hne : desc ≠ "" := by
    rcases List.any_eq_true.mp hk with ⟨k, hkm, hks⟩
    intro hd
    subst hd
    exact hwf k hkm (strContains_empty k hks)
  have hdb : (desc == "") = false := by simp [hne]
  simp only [counterAccount, looks_like_transfer, hen, Bool.not_true, Bool.false_eq_true,
    if_neg, not_false_iff, hdb, Bind.bind, Except.bind, hk, if_true, cellStr]
  rfl

/-- Witness for C3: a transfer-keyword description classified identically
under a rules map whose substring also matches. -/
theorem c3_transfer_precedence_witness :
    counterAccount
        { { cfg0 with
            transfers_enabled := true
            transfers_keywords := ["overforing"] } with
          rules_enabled := true
          rules_map := [("overforing", "Expenses:Wrong")]
          rules_default_counter := some "Equity:Unknown" }
        (some "Overforing till konto") =
      Except.ok (some (resolve_transfer_counter
        { cfg0 with
          transfers_enabled := true
          transfers_keywords := ["overforing"] } "Overforing till konto")) :=
  c3_transfer_precedence
    { cfg0 with
      transfers_enabled := true
      transfers_keywords := ["overforing"] }
    "Overforing till konto" (by decide) (by decide) (by decide)
    true [("overforing", "Expenses:Wrong")] (some "Equity:Unknown")

/-- C4: with destination parsing enabled, a non-empty AccountMap whose
values are actual ledger account names (non-empty strings), the code's
transfer-destination resolution coincides, for every description, with the
specification's algorithm `resolveTransferSpec`: extract all digits; with at
least 8 digits, first the full digit string, then every window of length 12,
11, 10, 9, 8 (descending, leftmost first), first map match wins; in all
other cases (fewer than 8 digits, no match, parsing disabled, or no map) the
configured transfer-classification account — never "not found". -/
theorem c4_resolve_transfer_matches_spec (cfg : Config)
    (hv : ∀ p ∈ cfg.account_map, p.2 ≠ "") (desc : String) :
    resolve_transfer_counter cfg desc = resolveTransferSpec cfg desc := by
  have hlk : ∀ k, lookupTruthy cfg.account_map k = dictGet cfg.account_map k :=
    lookupTruthy_eq_dictGet cfg.account_map hv
  have hw : windowSearch cfg.account_map (digitsOnly desc) =
      [12, 11, 10, 9, 8].findSome? (fun L =>
        if (digitsOnly desc).length < L then none
        else
          (List.range ((digitsOnly desc).length - L + 1)).findSome? (fun i =>
            dictGet cfg.account_map (slice (digitsOnly desc) i L))) := by
    unfold windowSearch
    refine findSome?_congr _ _ _ (fun L hL => ?_)
    by_cases hlen : (digitsOnly desc).length < L
    · simp [hlen]
    · simp only [hlen, if_neg, not_false_iff]
      exact findSome?_congr _ _ _ (fun i hi => hlk _)
  by_cases hd : desc = ""
  · subst hd
    unfold resolve_transfer_counter resolveTransferSpec
    have hdig : digitsOnly "" = "" := rfl
    rw [hdig]
    by_cases hp : (cfg.transfers_parse_dest_in_desc && !cfg.account_map.isEmpty) = true <;>
      simp [hp]
  · unfold resolve_transfer_counter resolveTransferSpec
    have hdesc : (desc == "") = false := by simp [hd]
    rw [if_neg (by simp [hdesc])]
    by_cases hp : (cfg.transfers_parse_dest_in_desc && !cfg.account_map.isEmpty) = true
    · rw [if_pos hp, if_pos hp]
      by_cases hlen : 8 ≤ (digitsOnly desc).length
      · rw [if_pos hlen, if_pos hlen, hlk, hw]
      · rw [if_neg hlen, if_neg hlen]
    · rw [if_neg hp, if_neg hp]

/-- Witness for C4: a 12-digit account number embedded with separators in a
transfer description resolves to its mapped account on both sides. -/
theorem c4_resolve_transfer_matches_spec_witness :
    resolve_transfer_counter
        { cfg0 with account_map := [("123456789012", "Assets:Sav")] }
        "Overforing till 1234-5678.9012" =
      resolveTransferSpec
        { cfg0 with account_map := [("123456789012", "Assets:Sav")] }
        "Overforing till 1234-5678.9012" :=
  c4_resolve_transfer_matches_spec
    { cfg0 with account_map := [("123456789012", "Assets:Sav")] } (by decide)
    "Overforing till 1234-5678.9012"

/-- C5: with balance assertions enabled and at least one balance-bearing
row: under `"file_end"` granularity exactly one Balance entry is produced —
from the last row (in original order) with a parsable running balance, dated
on that row's date with that balance amount; under `"daily"` granularity,
for every calendar date `d`, the output contains exactly one Balance entry
dated `d` when some balance-bearing row has date `d` (namely the entry built
from the last such row) and none otherwise. -/
theorem c5_balance_granularities (rows : List Row) (acct cur : String) (d : Nat)
    (hne : withBalance rows ≠ []) :
    (∃ x, (withBalance rows).getLast? = some x ∧
        appendBalanceAssertions "file_end" acct cur rows =
          [{ date := x.1.date, account := acct, number := x.2, currency := cur }]) ∧
      ((appendBalanceAssertions "daily" acct cur rows).filter (fun e => e.date == d) =
        match ((withBalance rows).filter (fun x => x.1.date == d)).getLast? with
        | some x => [{ date := x.1.date, account := acct, number := x.2, currency := cur }]
        | none => []) := by
  constructor
  · cases hl : (withBalance rows).getLast? with
    | none => exact absurd (List.getLast?_eq_none_iff.mp hl) hne
    | some x =>
      refine ⟨x, rfl, ?_⟩
      unfold appendBalanceAssertions
      simp [hl]
  · unfold appendBalanceAssertions
    have hg : (("daily" : String) == "file_end") = false := by decide
    simp only [hg, Bool.false_eq_true, if_neg, not_false_iff]
    rw [List.filter_map]
    have hcomp : ((fun e : BalanceEntry => e.date == d) ∘ (fun x : Row × Dec =>
        ({ date := x.1.date, account := acct, number := x.2,
           currency := cur } : BalanceEntry))) = fun x : Row × Dec => x.1.date == d := rfl
    rw [hcomp, selectLastPerDate_filter]
    cases hl : ((withBalance rows).filter fun x => x.1.date == d).getLast? <;> simp

/-- Witness for C5 at three concrete rows (two balance-bearing rows on date
1, a balance-less row on date 2), checked at date 1. -/
theorem c5_balance_granularities_witness :
    (∃ x, (withBalance rowsW).getLast? = some x ∧
        appendBalanceAssertions "file_end" "Assets:X" "SEK" rowsW =
          [{ date := x.1.date, account := "Assets:X", number := x.2, currency := "SEK" }]) ∧
      ((appendBalanceAssertions "daily" "Assets:X" "SEK" rowsW).filter
          (fun e => e.date == 1) =
        match ((withBalance rowsW).filter (fun x => x.1.date == 1)).getLast? with
        | some x =>
          [{ date := x.1.date, account := "Assets:X", number := x.2, currency := "SEK" }]
        | none => []) :=
  c5_balance_granularities rowsW "Assets:X" "SEK" 1 (by decide)

/-- C7 (amended): the constructed AccountMap contains an entry under every
configured raw key and under every key's digit-only normalized form, but the
merge `{**accounts, **normalized}` puts the normalized entries last, so on a
key collision the NORMALIZED mapping wins (the value of the last configured
key with that digit-only form), overwriting a raw-form entry with the same
key text — not the other way around, as the original claim stated.  The
equation: the merged value at `k` is the last configured value whose key
normalizes to `k`, falling back to the raw table's value at `k`. -/
theorem c7_account_map_construction (accounts : List (String × String))
    (k : String) (p : String × String) (hp : p ∈ accounts) :
    (dictGet (buildAccountMap accounts) k =
        match accounts.foldl
            (fun acc q => if digitsOnly q.1 == k then some q.2 else acc) none with
        | some v => some v
        | none => dictGet accounts k) ∧
      (dictGet (buildAccountMap accounts) p.1).isSome = true ∧
      (dictGet (buildAccountMap accounts) (digitsOnly p.1)).isSome = true := by
  have main : ∀ k', dictGet (buildAccountMap accounts) k' =
      match accounts.foldl
          (fun acc q => if digitsOnly q.1 == k' then some q.2 else acc) none with
      | some v => some v
      | none => dictGet accounts k' := by
    intro k'
    unfold buildAccountMap
    rw [dictGet_dictOfPairs]
    rw [foldl_opt_of_keysDistinct _
      (keysDistinct_dictOfPairs (accounts.map fun q => (digitsOnly q.1, q.2)) []
        List.Pairwise.nil) k']
    rw [dictGet_dictOfPairs]
    rw [show dictGet [] k' = none from rfl]
    rw [List.foldl_map]
  have hacc : (dictGet accounts p.1).isSome = true := by
    unfold dictGet
    cases hf : accounts.find? (fun q => q.1 == p.1) with
    | some q => simp
    | none =>
      have hall := List.find?_eq_none.mp hf p hp
      simp at hall
  refine ⟨main k, ?_, ?_⟩
  · rw [main p.1]
    cases hm : accounts.foldl
        (fun acc q => if digitsOnly q.1 == p.1 then some q.2 else acc) none with
    | some v => simp
    | none => exact hacc
  · have hsome := foldl_opt_isSome (fun q => digitsOnly q.1 == digitsOnly p.1) accounts
      none (Or.inr ⟨p, hp, by simp⟩)
    rw [main (digitsOnly p.1)]
    cases hm : accounts.foldl
        (fun acc q => if digitsOnly q.1 == digitsOnly p.1 then some q.2 else acc) none with
    | some v => simp
    | none =>
      rw [hm] at hsome
      simp at hsome

/-- Witness for C7 at a one-entry accounts table. -/
theorem c7_account_map_construction_witness :
    (dictGet (buildAccountMap [("1234-5678", "Assets:B")]) "12345678" =
        match [("1234-5678", "Assets:B")].foldl
            (fun acc q => if digitsOnly q.1 == "12345678" then some q.2 else acc) none with
        | some v => some v
        | none => dictGet [("1234-5678", "Assets:B")] "12345678") ∧
      (dictGet (buildAccountMap [("1234-5678", "Assets:B")]) "1234-5678").isSome = true ∧
      (dictGet (buildAccountMap [("1234-5678", "Assets:B")])
          (digitsOnly "1234-5678")).isSome = true :=
  c7_account_map_construction [("1234-5678", "Assets:B")] "12345678"
    ("1234-5678", "Assets:B") (by decide)

/-- C8 (amended): for every row that is not classified as a transfer, when
keyword rules are enabled, the rules map is NON-EMPTY, and a non-empty
default counter is configured, if no rules-map substring occurs in the
lowercased description then the transaction receives a counter posting on
the configured default counter (with the exact negated amount); with an
empty rules map the code adds no counter posting at all (this non-emptiness
condition is what the original claim was missing). -/
theorem c8_default_counter_applies (cfg : Config) (acct : String) (dt : Nat) (s : String)
    (a : Dec) (bc : Cell) (dc : String)
    (hrules : cfg.rules_enabled = true)
    (hmap : cfg.rules_map ≠ [])
    (hdc : cfg.rules_default_counter = some dc)
    (hdcne : dc ≠ "")
    (hnt : looks_like_transfer cfg (some s) = Except.ok false)
    (hnosub : ∀ p ∈ cfg.rules_map, strContains (pyLower s) p.1 = false)
    (hz : (cfg.skip_zero_amounts && decide (a = 0)) = false) :
    rowEntry cfg acct { date := dt, desc := some s, amount := a, balance := bc } =
      Except.ok (some
        { date := dt
          payee := if cfg.infer_payee_from_description then some s else none
          narration := if cfg.infer_payee_from_description then some "" else some s
          postings := [{ account := acct, number := a, currency := cfg.currency },
            { account := dc, number := -a, currency := cfg.currency }] }) := by
  have hmape : cfg.rules_map.isEmpty = false := by
    cases hm : cfg.rules_map with
    | nil => exact absurd hm hmap
    | cons q l => rfl
  have hguess : guess_counter_account cfg (some s) = Except.ok (some dc) := by
    unfold guess_counter_account
    rw [hrules]
    simp only [Bool.not_true, hmape, Bool.or_self, Bool.false_eq_true, if_neg,
      not_false_iff]
    rw [List.find?_eq_none.mpr (fun p hpm => by simp [hnosub p hpm])]
    rw [hdc]
  have hca : counterAccount cfg (some s) = Except.ok (some dc) := by
    unfold counterAccount
    simp only [Bind.bind, Except.bind, hnt, hguess, Bool.false_eq_true, if_neg,
      not_false_iff]
    simp only [truthyStr]
    have hb : (dc == "") = false := by simp [hdcne]
    simp only [hb, Bool.not_false, if_true]
    rfl
  unfold rowEntry
  rw [if_neg (by simp [hz])]
  simp only [Bind.bind, Except.bind, hca, ite_self]
  rfl

/-- Witness for C8 at a concrete configuration and row. -/
theorem c8_default_counter_applies_witness :
    rowEntry
        { cfg0 with
          rules_enabled := true
          rules_map := [("gym", "Expenses:Gym")]
          rules_default_counter := some "Equity:Unknown" }
        "Assets:X" { date := 3, desc := some "Coffee", amount := -7, balance := none } =
      Except.ok (some
        { date := 3
          payee := if ({ cfg0 with
              rules_enabled := true
              rules_map := [("gym", "Expenses:Gym")]
              rules_default_counter := some "Equity:Unknown" } : Config).infer_payee_from_description
            then some "Coffee" else none
          narration := if ({ cfg0 with
              rules_enabled := true
              rules_map := [("gym", "Expenses:Gym")]
              rules_default_counter := some "Equity:Unknown" } : Config).infer_payee_from_description
            then some "" else some "Coffee"
          postings := [{ account := "Assets:X", number := -7, currency := "SEK" },
            { account := "Equity:Unknown", number := -(-7), currency := "SEK" }] }) :=
  c8_default_counter_applies
    { cfg0 with
      rules_enabled := true
      rules_map := [("gym", "Expenses:Gym")]
      rules_default_counter := some "Equity:Unknown" }
    "Assets:X" 3 "Coffee" (-7) none "Equity:Unknown" rfl (by decide) rfl (by decide)
    (by decide) (by decide) (by decide)

end Skandia
